import Mathlib

/-!
Verification of the APOD archiver (`src/apod.py`): response merge/dedup
persistence, response normalisation, image-URL derivation and image
fetch/save planning, shallowly embedded in Lean.

External library effects are passed explicitly: `json.loads`/`json.load`
and `json.dump` as `parse`/`dump` functions, `requests.get` as an
`http` function, and the filesystem as explicit state.
-/

/-! ## Strings: the comparison and trimming operations the source relies on -/

/-- Lexicographic comparison of character sequences by code point: the
order Python uses to compare strings. -/
def charListLe : List Char → List Char → Bool
  | [], _ => true
  | _ :: _, [] => false
  | a :: as, b :: bs =>
    if a.toNat < b.toNat then true
    else if b.toNat < a.toNat then false
    else charListLe as bs

/-- Python `<=` on strings. -/
def strLe (a b : String) : Bool := charListLe a.data b.data

/-- Python `str.rstrip()`: drop trailing whitespace. (Python also strips
`\v`/`\f`, which never occur in api-key files.) -/
def rstrip (s : String) : String :=
  String.mk ((s.data.reverse.dropWhile Char.isWhitespace).reverse)

/-! ## JSON values -/

/-- JSON values, as produced by `json.loads` / consumed by `json.dump`.
Objects are modelled as ordered association lists (the field order of the
underlying JSON document; `json.load`/`json.dump` preserve it, so the
records handled here always carry their fields in document order). -/
inductive Json where
  | str (s : String)
  | num (n : Int)
  | bool (b : Bool)
  | null
  | arr (items : List Json)
  | obj (fields : List (String × Json))

mutual

/-- Decidable structural equality of JSON values (Python `==` on parsed
JSON, with objects compared in document field order). -/
def Json.decEq : (a b : Json) → Decidable (a = b)
  | .str a, .str b =>
    match String.decEq a b with
    | isTrue h => isTrue (by rw [h])
    | isFalse h => isFalse (by intro he; injection he; exact h ‹_›)
  | .num a, .num b =>
    match Int.decEq a b with
    | isTrue h => isTrue (by rw [h])
    | isFalse h => isFalse (by intro he; injection he; exact h ‹_›)
  | .bool a, .bool b =>
    match Bool.decEq a b with
    | isTrue h => isTrue (by rw [h])
    | isFalse h => isFalse (by intro he; injection he; exact h ‹_›)
  | .null, .null => isTrue rfl
  | .arr as, .arr bs =>
    match Json.decEqList as bs with
    | isTrue h => isTrue (by rw [h])
    | isFalse h => isFalse (by intro he; injection he; exact h ‹_›)
  | .obj fs, .obj gs =>
    match Json.decEqFields fs gs with
    | isTrue h => isTrue (by rw [h])
    | isFalse h => isFalse (by intro he; injection he; exact h ‹_›)
  | .str _, .num _ => isFalse (fun h => nomatch h)
  | .str _, .bool _ => isFalse (fun h => nomatch h)
  | .str _, .null => isFalse (fun h => nomatch h)
  | .str _, .arr _ => isFalse (fun h => nomatch h)
  | .str _, .obj _ => isFalse (fun h => nomatch h)
  | .num _, .str _ => isFalse (fun h => nomatch h)
  | .num _, .bool _ => isFalse (fun h => nomatch h)
  | .num _, .null => isFalse (fun h => nomatch h)
  | .num _, .arr _ => isFalse (fun h => nomatch h)
  | .num _, .obj _ => isFalse (fun h => nomatch h)
  | .bool _, .str _ => isFalse (fun h => nomatch h)
  | .bool _, .num _ => isFalse (fun h => nomatch h)
  | .bool _, .null => isFalse (fun h => nomatch h)
  | .bool _, .arr _ => isFalse (fun h => nomatch h)
  | .bool _, .obj _ => isFalse (fun h => nomatch h)
  | .null, .str _ => isFalse (fun h => nomatch h)
  | .null, .num _ => isFalse (fun h => nomatch h)
  | .null, .bool _ => isFalse (fun h => nomatch h)
  | .null, .arr _ => isFalse (fun h => nomatch h)
  | .null, .obj _ => isFalse (fun h => nomatch h)
  | .arr _, .str _ => isFalse (fun h => nomatch h)
  | .arr _, .num _ => isFalse (fun h => nomatch h)
  | .arr _, .bool _ => isFalse (fun h => nomatch h)
  | .arr _, .null => isFalse (fun h => nomatch h)
  | .arr _, .obj _ => isFalse (fun h => nomatch h)
  | .obj _, .str _ => isFalse (fun h => nomatch h)
  | .obj _, .num _ => isFalse (fun h => nomatch h)
  | .obj _, .bool _ => isFalse (fun h => nomatch h)
  | .obj _, .null => isFalse (fun h => nomatch h)
  | .obj _, .arr _ => isFalse (fun h => nomatch h)

def Json.decEqList : (as bs : List Json) → Decidable (as = bs)
  | [], [] => isTrue rfl
  | [], _ :: _ => isFalse (fun h => nomatch h)
  | _ :: _, [] => isFalse (fun h => nomatch h)
  | a :: as, b :: bs =>
    match Json.decEq a b, Json.decEqList as bs with
    | isTrue h1, isTrue h2 => isTrue (by rw [h1, h2])
    | isFalse h1, _ => isFalse (by intro he; injection he; exact h1 ‹_›)
    | isTrue _, isFalse h2 => isFalse (by intro he; injection he; exact h2 ‹_›)

def Json.decEqFields :
    (fs gs : List (String × Json)) → Decidable (fs = gs)
  | [], [] => isTrue rfl
  | [], _ :: _ => isFalse (fun h => nomatch h)
  | _ :: _, [] => isFalse (fun h => nomatch h)
  | (k, v) :: fs, (l, w) :: gs =>
    match String.decEq k l, Json.decEq v w, Json.decEqFields fs gs with
    | isTrue h1, isTrue h2, isTrue h3 => isTrue (by rw [h1, h2, h3])
    | isFalse h1, _, _ =>
      isFalse (by intro he; injection he with hp ht; injection hp; exact h1 ‹_›)
    | isTrue _, isFalse h2, _ =>
      isFalse (by intro he; injection he with hp ht; injection hp; exact h2 ‹_›)
    | isTrue _, isTrue _, isFalse h3 =>
      isFalse (by intro he; injection he with hp ht; exact h3 ht)

end

instance : DecidableEq Json := Json.decEq

/-- Key lookup in a JSON object (`record["k"]` / `"k" in record`);
`none` on a non-object. -/
def lookupField (j : Json) (k : String) : Option Json :=
  match j with
  | .obj fields => fields.lookup k
  | _ => none

def Json.isObj : Json → Bool
  | .obj _ => true
  | _ => false

/-- The sort key used by `save_response`: `response["date"]`, which for
well-formed APOD records is a `YYYY-MM-DD` string. Records without a
string `date` get the neutral key `""`. -/
def dateKey (r : Json) : String :=
  match lookupField r "date" with
  | some (.str s) => s
  | _ => ""

/-- Comparison used by `past_responses.sort(key=lambda r: r["date"])`. -/
def dateLe (a b : Json) : Prop := strLe (dateKey a) (dateKey b) = true

instance : DecidableRel dateLe := fun a b => by
  unfold dateLe; infer_instance

/-! ## `save_response` (Response Archive) -/

/-- The `filtered_past_responses` loop of `save_response`: walk the list and
append each record not already present (Python `response not in
filtered_past_responses`), i.e. keep-first deduplication by structural
equality of whole records. -/
def filterLoop (past_responses : List Json) : List Json :=
  past_responses.foldl
    (fun acc response => if response ∈ acc then acc else acc ++ [response]) []

/-- In-memory part of `save_response`: extend the past responses with the
incoming formatted response, stable-sort by the `date` field
(`past_responses.sort(key=lambda r: r["date"])`; Python `list.sort` is
stable, and `insertionSort` is the corresponding stable sort), then filter
out duplicates keeping first occurrences. -/
def merge_responses (past_responses formatted_response : List Json) : List Json :=
  filterLoop (List.insertionSort dateLe (past_responses ++ formatted_response))

/-- Keep-first deduplication in recursive form: keep the head, drop its
later duplicates, recurse. Provably equal to the `filterLoop` accumulator
loop (`filterLoop_eq_dedupF`); used as the reference shape for the spec's
"deduplicate preserving first occurrence". -/
def dedupF {α : Type} [DecidableEq α] : List α → List α
  | [] => []
  | a :: l => a :: dedupF (l.filter (fun b => b ≠ a))
termination_by l => l.length
decreasing_by
  simpa using Nat.lt_succ_of_le (List.length_filter_le _ l)

/-- The Response Archive algorithm as worded in the spec (§4.3):
concatenate `existing` and `incoming`, stable-sort the concatenation by
`date` ascending, deduplicate preserving first occurrence, where two
records are duplicates iff they are structurally equal in their
entirety. -/
def merge_spec (existing incoming : List Json) : List Json :=
  dedupF (List.insertionSort dateLe (existing ++ incoming))

/-- State of the `responses.json` archive file: `none` when absent,
otherwise its textual content. -/
structure FS where
  responses : Option String
deriving DecidableEq

inductive SaveErr where
  /-- `os.path.getsize` on an absent file: uncaught `FileNotFoundError`. -/
  | fsError
  /-- `json.load` on unparsable content: uncaught `json.JSONDecodeError`
  (the spec's `ArchiveCorrupt`). -/
  | archiveCorrupt
deriving DecidableEq

/-- `save_response`, with the filesystem passed explicitly and `json.load` /
`json.dump` abstracted as `parse` / `dump`. An uncaught exception leaves
the filesystem untouched, since the write comes only after a successful
read and merge. -/
def save_response (parse : String → Option (List Json)) (dump : List Json → String)
    (fs : FS) (formatted_response : List Json) :
    Except SaveErr (List Json) × FS :=
  match fs.responses with
  | none => (.error .fsError, fs)
  | some content =>
    if 0 < content.length then
      match parse content with
      | none => (.error .archiveCorrupt, fs)
      | some past_responses =>
          let merged := merge_responses past_responses formatted_response
          (.ok merged, ⟨some (dump merged)⟩)
    else
      let merged := merge_responses [] formatted_response
      (.ok merged, ⟨some (dump merged)⟩)

/-! ## `format_response` (Response Normalizer) -/

inductive FormatErr where
  /-- `json.loads` on invalid JSON: uncaught `json.JSONDecodeError`
  (the spec's `MalformedPayload`). -/
  | malformedPayload
deriving DecidableEq

/-- `format_response`: parse `response.text` as JSON; wrap a dict into a
one-element list; return anything else as parsed. -/
def format_response (parse : String → Option Json) (text : String) :
    Except FormatErr Json :=
  match parse text with
  | none => .error .malformedPayload
  | some query =>
    match query with
    | .obj fields => .ok (.arr [.obj fields])
    | q => .ok q

/-! ## `get_response` (API Client) -/

/-- Result of one `requests.get` as observed through `raise_for_status`. -/
inductive HttpResult where
  /-- 2xx response with the given body text. -/
  | ok (text : String)
  /-- `raise_for_status` raised `requests.exceptions.HTTPError`. -/
  | httpErr
  /-- `requests.get` raised a `requests.exceptions.RequestException`. -/
  | transportErr

inductive FetchErr where
  /-- `open` on an unreadable api-key file: uncaught `OSError`. -/
  | fsError
  /-- `readlines()[0]` on an empty file: `IndexError`, re-raised as
  `ValueError("No API Key set...")` (the spec's `ApiKeyMissing`). -/
  | apiKeyMissing
  /-- `ValueError("HTTP Error: ...")` (the spec's `HttpError`). -/
  | httpError
  /-- `ValueError("Ran into a problem fetching ...")` (the spec's
  `TransportError`). -/
  | transportError
deriving DecidableEq

/-- Python truthiness of an optional string argument
(`None` and `""` are falsy). -/
def pyTruthy : Option String → Bool
  | none => false
  | some s => s ≠ ""

/-- Python truthiness of the optional `count` argument. -/
def pyTruthyInt : Option Int → Bool
  | none => false
  | some n => n ≠ 0

/-- The fixed APOD endpoint up to and including the `api_key=` query
parameter. -/
def apodBase : String := "https://api.nasa.gov/planetary/apod?api_key="

/-- The url built by `get_response`: base plus api key, then exactly one of
the query modifiers, `date` before `start_date` (with optional `end_date`)
before `count`. -/
def request_url (api_key : String) (date start_date end_date : Option String)
    (count : Option Int) : String :=
  let url := apodBase ++ api_key
  if pyTruthy date then url ++ "&date=" ++ date.getD ""
  else if pyTruthy start_date then
    let url := url ++ "&start_date=" ++ start_date.getD ""
    if pyTruthy end_date then url ++ "&end_date=" ++ end_date.getD "" else url
  else if pyTruthyInt count then url ++ "&count=" ++ toString (count.getD 0)
  else url

/-- `get_response`, with the api-key file abstracted as the result of
`readlines()` (`none` when the file cannot be opened) and the network as
`http`. Returns the outcome together with the trace of urls actually
requested. -/
def get_response (keySource : Option (List String))
    (date start_date end_date : Option String) (count : Option Int)
    (http : String → HttpResult) : Except FetchErr String × List String :=
  match keySource with
  | none => (.error .fsError, [])
  | some lines =>
    match lines with
    | [] => (.error .apiKeyMissing, [])
    | line :: _ =>
      let api_key := rstrip line
      let url := request_url api_key date start_date end_date count
      match http url with
      | .ok text => (.ok text, [url])
      | .httpErr => (.error .httpError, [url])
      | .transportErr => (.error .transportError, [url])

/-! ## `get_image_urls` (Image Fetcher, planning half) -/

inductive ImageUrlErr where
  /-- `image_json["url"]` on a record with neither `hdurl` nor `url`:
  uncaught `KeyError` (the spec's `MissingImageUrl`). -/
  | missingImageUrl
deriving DecidableEq

/-- `get_image_urls`: for each record take `hdurl` if the key is present,
else `url`; a record with neither raises, aborting the whole batch. -/
def get_image_urls : List Json → Except ImageUrlErr (List Json)
  | [] => .ok []
  | image_json :: rest =>
    match lookupField image_json "hdurl" with
    | some image_url => (get_image_urls rest).map (image_url :: ·)
    | none =>
      match lookupField image_json "url" with
      | some image_url => (get_image_urls rest).map (image_url :: ·)
      | none => .error .missingImageUrl

/-! ## `get_images` / `save_images` (Image Fetcher and Store) -/

/-- `os.path.split(url)[1]`: the final path segment of the url, i.e.
everything after the last `/` (the whole url if there is no `/`). -/
def image_name_of (url : String) : String :=
  String.mk ((url.data.reverse.takeWhile (fun c => c ≠ '/')).reverse)

/-- `get_images`, with the existence check on the images directory
abstracted as `onDisk` and the network as `http`. Returns the trace of
urls actually requested together with the outcome: the `(image_name,
image_data)` pairs, or the error raised by the first failed request
(which aborts the loop and discards the pairs collected so far). -/
def get_images (onDisk : String → Bool) (http : String → HttpResult) :
    List String → List String × Except FetchErr (List (String × String))
  | [] => ([], .ok [])
  | url :: rest =>
    let image_name := image_name_of url
    if onDisk image_name then
      get_images onDisk http rest
    else
      match http url with
      | .ok image_data =>
        let (trace, result) := get_images onDisk http rest
        (url :: trace, result.map ((image_name, image_data) :: ·))
      | .httpErr => ([url], .error .httpError)
      | .transportErr => ([url], .error .transportError)

/-- One `open(image_filename, "wb").write(...)`: map update, truncating any
existing file of that name. -/
def writeFile (dir : String → Option String) (name content : String) :
    String → Option String :=
  fun k => if k = name then some content else dir k

/-- `save_images`: write each `(image_name, image_data)` pair in order into
the images directory, modelled as a map from filename to content. -/
def save_images (dir : String → Option String) (images : List (String × String)) :
    String → Option String :=
  images.foldl (fun d image => writeFile d image.1 image.2) dir

/-! ## Sample records, for concrete instantiations -/

/-- A record dated 2020-01-01 pointing at image `u1`. -/
def recU1 : Json := Json.obj [("date", Json.str "2020-01-01"), ("url", Json.str "u1")]

/-- A record with the same date as `recU1` but a different `url` field. -/
def recU2 : Json := Json.obj [("date", Json.str "2020-01-01"), ("url", Json.str "u2")]

/-- A record dated 2020-01-02. -/
def recV2 : Json := Json.obj [("date", Json.str "2020-01-02"), ("url", Json.str "v2")]

/-! ## Order facts about the date comparison -/

theorem charListLe_total : ∀ a b : List Char, charListLe a b = true ∨ charListLe b a = true
  | [], _ => .inl rfl
  | _ :: _, [] => .inr rfl
  | a :: as, b :: bs => by
    rcases Nat.lt_trichotomy a.toNat b.toNat with h | h | h
    · left; simp [charListLe, h]
    · rcases charListLe_total as bs with ih | ih <;>
        simp [charListLe, h, Nat.lt_irrefl, ih]
    · right; simp [charListLe, h]

theorem charListLe_cons {a b : Char} {as bs : List Char} :
    charListLe (a :: as) (b :: bs) = true ↔
      a.toNat < b.toNat ∨ (a.toNat = b.toNat ∧ charListLe as bs = true) := by
  simp only [charListLe]
  split_ifs with h1 h2
  · simp [h1]
  · simp only [Bool.false_eq_true, false_iff]
    rintro (hp | ⟨hq, -⟩) <;> omega
  · have heq : a.toNat = b.toNat := by omega
    simp [heq, h1]

theorem charListLe_trans :
    ∀ a b c : List Char, charListLe a b = true → charListLe b c = true →
      charListLe a c = true
  | [], _, _ => fun _ _ => rfl
  | _ :: _, [], _ => fun hab _ => by simp [charListLe] at hab
  | _ :: _, _ :: _, [] => fun _ hbc => by simp [charListLe] at hbc
  | a :: as, b :: bs, c :: cs => fun hab hbc => by
    rw [charListLe_cons] at hab hbc ⊢
    rcases hab with h | ⟨he, hrec⟩
    · rcases hbc with h' | ⟨he', -⟩ <;> (left; omega)
    · rcases hbc with h' | ⟨he', hrec'⟩
      · left; omega
      · exact .inr ⟨by omega, charListLe_trans as bs cs hrec hrec'⟩

theorem dateLe_isTotal : IsTotal Json dateLe :=
  ⟨fun a b => charListLe_total (dateKey a).data (dateKey b).data⟩

theorem dateLe_isTrans : IsTrans Json dateLe :=
  ⟨fun _ _ _ h h' => charListLe_trans _ _ _ h h'⟩

/-! ## Keep-first deduplication: basic lemmas -/

theorem dedupF_nil {α : Type} [DecidableEq α] : dedupF ([] : List α) = [] := by
  simp [dedupF]

theorem dedupF_cons {α : Type} [DecidableEq α] (a : α) (l : List α) :
    dedupF (a :: l) = a :: dedupF (l.filter (fun b => b ≠ a)) := by
  simp [dedupF]

theorem mem_dedupF {α : Type} [DecidableEq α] {x : α} :
    ∀ l : List α, x ∈ dedupF l ↔ x ∈ l
  | [] => by simp [dedupF]
  | a :: l => by
    rw [dedupF_cons, List.mem_cons, List.mem_cons,
      mem_dedupF (l.filter (fun b => b ≠ a))]
    by_cases hx : x = a
    · simp [hx]
    · simp [hx, List.mem_filter]
termination_by l => l.length
decreasing_by
  simpa using Nat.lt_succ_of_le (List.length_filter_le _ l)

theorem dedupF_sublist {α : Type} [DecidableEq α] :
    ∀ l : List α, List.Sublist (dedupF l) l
  | [] => by simp [dedupF]
  | a :: l => by
    rw [dedupF_cons]
    exact ((dedupF_sublist _).trans (List.filter_sublist l)).cons₂ a
termination_by l => l.length
decreasing_by
  simpa using Nat.lt_succ_of_le (List.length_filter_le _ l)

theorem nodup_dedupF {α : Type} [DecidableEq α] :
    ∀ l : List α, (dedupF l).Nodup
  | [] => by simp [dedupF]
  | a :: l => by
    rw [dedupF_cons, List.nodup_cons]
    refine ⟨?_, nodup_dedupF _⟩
    intro hmem
    rw [mem_dedupF, List.mem_filter] at hmem
    simp at hmem
termination_by l => l.length
decreasing_by
  simpa using Nat.lt_succ_of_le (List.length_filter_le _ l)

theorem dedupF_eq_self_of_nodup {α : Type} [DecidableEq α] :
    ∀ l : List α, l.Nodup → dedupF l = l
  | [] => fun _ => dedupF_nil
  | a :: l => fun h => by
    rw [List.nodup_cons] at h
    rw [dedupF_cons]
    have hf : l.filter (fun b => b ≠ a) = l := by
      rw [List.filter_eq_self]
      intro b hb
      simp only [decide_eq_true_eq]
      rintro rfl
      exact h.1 hb
    rw [hf, dedupF_eq_self_of_nodup l h.2]

theorem dedupF_idem {α : Type} [DecidableEq α] (l : List α) :
    dedupF (dedupF l) = dedupF l :=
  dedupF_eq_self_of_nodup _ (nodup_dedupF l)

theorem dedupF_append_of_subset {α : Type} [DecidableEq α] :
    ∀ l l' : List α, (∀ x ∈ l', x ∈ l) → dedupF (l ++ l') = dedupF l
  | [], l' => fun h => by
    have : l' = [] := by
      rw [List.eq_nil_iff_forall_not_mem]
      intro x hx
      simpa using h x hx
    simp [this]
  | a :: l, l' => fun h => by
    rw [List.cons_append, dedupF_cons, dedupF_cons, List.filter_append]
    congr 1
    apply dedupF_append_of_subset
    intro x hx
    rw [List.mem_filter] at hx ⊢
    rcases hx with ⟨hx1, hx2⟩
    simp only [decide_eq_true_eq] at hx2
    rcases List.mem_cons.mp (h x hx1) with rfl | hm
    · exact absurd rfl hx2
    · exact ⟨hm, by simpa using hx2⟩
termination_by l _ => l.length
decreasing_by
  simpa using Nat.lt_succ_of_le (List.length_filter_le _ l)

/-! ## The accumulator loop computes keep-first deduplication -/

theorem foldl_filterLoop {α : Type} [DecidableEq α] :
    ∀ (l acc : List α),
      l.foldl (fun acc r => if r ∈ acc then acc else acc ++ [r]) acc
        = acc ++ dedupF (l.filter (fun x => x ∉ acc))
  | [], acc => by simp [dedupF_nil]
  | r :: l, acc => by
    rw [List.foldl_cons, List.filter_cons]
    by_cases hr : r ∈ acc
    · rw [if_pos hr, foldl_filterLoop l acc]
      simp [hr]
    · rw [if_neg hr]
      have : (decide (r ∉ acc)) = true := by simpa using hr
      rw [this, if_pos rfl, dedupF_cons, foldl_filterLoop l (acc ++ [r])]
      have hfe :
          l.filter (fun x => x ∉ acc ++ [r])
            = (l.filter (fun x => x ∉ acc)).filter (fun b => b ≠ r) := by
        rw [List.filter_filter]
        apply List.filter_congr
        intro x _
        by_cases hx : x = r
        · subst hx; simp
        · by_cases hxa : x ∈ acc <;> simp [hx, hxa]
      rw [hfe]
      simp
termination_by l _ => l.length

theorem filterLoop_eq_dedupF (l : List Json) : filterLoop l = dedupF l := by
  rw [filterLoop, foldl_filterLoop l [], List.nil_append]
  congr 1
  rw [List.filter_eq_self]
  intro b _
  simp

theorem merge_responses_eq_merge_spec (past incoming : List Json) :
    merge_responses past incoming = merge_spec past incoming := by
  rw [merge_responses, merge_spec, filterLoop_eq_dedupF]

/-! ## Stable sorting commutes with keep-first deduplication -/

theorem orderedInsert_eq_cons {α : Type} (r : α → α → Prop) [DecidableRel r] (a : α) :
    ∀ M : List α, (∀ z ∈ M, r a z) → M.orderedInsert r a = a :: M
  | [] => fun _ => rfl
  | z :: M => fun h => by
    rw [List.orderedInsert, if_pos (h z (List.mem_cons_self z M))]

theorem filter_orderedInsert_of_neg {α : Type} (r : α → α → Prop) [DecidableRel r]
    {p : α → Bool} {a : α} (ha : p a = false) :
    ∀ L : List α, (L.orderedInsert r a).filter p = L.filter p
  | [] => by simp [List.orderedInsert, ha]
  | y :: L => by
    rw [List.orderedInsert]
    split_ifs with hr
    · simp [List.filter_cons, ha]
    · simp only [List.filter_cons, filter_orderedInsert_of_neg r ha L]

theorem filter_orderedInsert_of_pos {α : Type} (r : α → α → Prop) [DecidableRel r]
    [IsTrans α r] {p : α → Bool} {a : α} (ha : p a = true) :
    ∀ L : List α, L.Sorted r →
      (L.orderedInsert r a).filter p = (L.filter p).orderedInsert r a
  | [] => fun _ => by simp [List.orderedInsert, ha]
  | y :: L => fun hs => by
    have hsL : L.Sorted r := hs.of_cons
    rw [List.orderedInsert]
    split_ifs with hr
    · by_cases hy : p y = true
      · simp [List.filter_cons, ha, hy, List.orderedInsert, hr]
      · have hy' : p y = false := by simpa using hy
        have hall : ∀ z ∈ L.filter p, r a z := fun z hz =>
          IsTrans.trans a y z hr
            (List.rel_of_sorted_cons hs z (List.mem_of_mem_filter hz))
        simp [List.filter_cons, ha, hy']
        exact (orderedInsert_eq_cons r a _ hall).symm
    · by_cases hy : p y = true
      · simp [List.filter_cons, hy, filter_orderedInsert_of_pos r ha L hsL,
          List.orderedInsert, hr]
      · have hy' : p y = false := by simpa using hy
        simp [List.filter_cons, hy', filter_orderedInsert_of_pos r ha L hsL]

theorem dedupF_orderedInsert {α : Type} [DecidableEq α] (r : α → α → Prop)
    [DecidableRel r] [IsTotal α r] [IsTrans α r] (a : α) :
    ∀ L : List α, L.Sorted r →
      dedupF (L.orderedInsert r a)
        = (dedupF (L.filter (fun b => b ≠ a))).orderedInsert r a
  | [] => fun _ => by simp [List.orderedInsert, dedupF_nil, dedupF_cons]
  | b :: L => fun hs => by
    have hsL : L.Sorted r := hs.of_cons
    rw [List.orderedInsert]
    split_ifs with hr
    · by_cases hb : b = a
      · subst hb
        have hall : ∀ z ∈ dedupF (L.filter (fun x => x ≠ b)), r b z := by
          intro z hz
          rw [mem_dedupF, List.mem_filter] at hz
          exact List.rel_of_sorted_cons hs z hz.1
        have hfa : (b :: L).filter (fun x => x ≠ b) = L.filter (fun x => x ≠ b) := by
          simp [List.filter_cons]
        rw [hfa, orderedInsert_eq_cons r b _ hall, dedupF_cons]
        have hfa2 : (b :: L).filter (fun x => x ≠ b) = L.filter (fun x => x ≠ b) := by
          simp [List.filter_cons]
        rw [hfa2]
      · have hfb : (b :: L).filter (fun x => x ≠ a) = b :: L.filter (fun x => x ≠ a) := by
          simp [List.filter_cons, hb]
        rw [hfb]
        simp only [dedupF_cons]
        rw [List.orderedInsert, if_pos hr]
        have hfb2 : (b :: L).filter (fun x => x ≠ a) = b :: L.filter (fun x => x ≠ a) := by
          simp [List.filter_cons, hb]
        rw [hfb2]
        simp only [dedupF_cons]
    · have hra : r a a := by
        rcases IsTotal.total (r := r) a a with h | h <;> exact h
      have hab : a ≠ b := by
        rintro rfl
        exact hr hra
      have hpa : (fun x => decide (x ≠ b)) a = true := by simpa using hab
      rw [dedupF_cons,
        filter_orderedInsert_of_pos r hpa L hsL,
        dedupF_orderedInsert r a (L.filter (fun x => x ≠ b)) (hsL.filter _)]
      have hfb : (b :: L).filter (fun x => x ≠ a) = b :: L.filter (fun x => x ≠ a) := by
        simp [List.filter_cons, Ne.symm hab]
      rw [hfb, dedupF_cons, List.orderedInsert, if_neg hr, List.filter_comm]
termination_by L => L.length
decreasing_by
  simpa using Nat.lt_succ_of_le (List.length_filter_le _ _)

theorem filter_insertionSort {α : Type} (r : α → α → Prop) [DecidableRel r]
    [IsTotal α r] [IsTrans α r] (p : α → Bool) :
    ∀ l : List α, (l.insertionSort r).filter p = (l.filter p).insertionSort r
  | [] => rfl
  | a :: l => by
    rw [List.insertionSort]
    by_cases ha : p a = true
    · rw [filter_orderedInsert_of_pos r ha _ (List.sorted_insertionSort r l),
        filter_insertionSort r p l]
      simp only [List.filter_cons, ha, if_pos rfl, List.insertionSort]
    · have ha' : p a = false := by simpa using ha
      rw [filter_orderedInsert_of_neg r ha' _, filter_insertionSort r p l]
      simp only [List.filter_cons, ha', if_neg (by simp : ¬ (false = true))]

theorem dedupF_insertionSort {α : Type} [DecidableEq α] (r : α → α → Prop)
    [DecidableRel r] [IsTotal α r] [IsTrans α r] :
    ∀ l : List α, dedupF (l.insertionSort r) = (dedupF l).insertionSort r
  | [] => by simp [List.insertionSort, dedupF_nil]
  | a :: l => by
    rw [List.insertionSort,
      dedupF_orderedInsert r a _ (List.sorted_insertionSort r l),
      filter_insertionSort r _ l,
      dedupF_insertionSort r (l.filter (fun b => b ≠ a)),
      dedupF_cons, List.insertionSort]
termination_by l => l.length
decreasing_by
  simpa using Nat.lt_succ_of_le (List.length_filter_le _ l)

/-! ## Sortedness of merged archives -/

theorem sorted_merge_responses (E I : List Json) :
    (merge_responses E I).Sorted dateLe := by
  haveI := dateLe_isTotal
  haveI := dateLe_isTrans
  rw [merge_responses, filterLoop_eq_dedupF]
  exact List.Pairwise.sublist (dedupF_sublist _)
    (List.sorted_insertionSort dateLe (E ++ I))

/-! ## Claim theorems -/

theorem mem_merge_spec {r : Json} (E I : List Json) :
    r ∈ merge_spec E I ↔ r ∈ E ++ I := by
  rw [merge_spec, mem_dedupF, List.mem_insertionSort]

/-- C1: for every archive content parsing to existing records `E` and every
incoming batch `I`, `save_response` persists exactly the sequence obtained
by concatenating `E` then `I`, stable-sorting by `date` ascending, and
deduplicating keeping first occurrences, where duplicates are records
structurally equal in their entirety; in particular two distinct records
sharing a `date` are both retained. -/
theorem save_response_persists_merge_spec
    (parse : String → Option (List Json)) (dump : List Json → String)
    (content : String) (E I : List Json)
    (hparse : parse content = some E) (hne : 0 < content.length) :
    save_response parse dump ⟨some content⟩ I
        = (.ok (merge_spec E I), ⟨some (dump (merge_spec E I))⟩)
      ∧ ∀ r₁ r₂ : Json, r₁ ∈ E ++ I → r₂ ∈ E ++ I → dateKey r₁ = dateKey r₂ →
          r₁ ≠ r₂ → r₁ ∈ merge_spec E I ∧ r₂ ∈ merge_spec E I := by
  constructor
  · simp only [save_response, hparse]
    rw [if_pos hne, merge_responses_eq_merge_spec]
  · intro r₁ r₂ h1 h2 _ _
    exact ⟨(mem_merge_spec E I).mpr h1, (mem_merge_spec E I).mpr h2⟩

theorem save_response_persists_merge_spec_witness :
    ((fun _ : String => some [recU1]) "x" = some [recU1] ∧ 0 < ("x" : String).length)
      ∧ recU1 ∈ merge_spec [recU1] [recU2] ∧ recU2 ∈ merge_spec [recU1] [recU2] :=
  ⟨⟨rfl, by decide⟩,
    (save_response_persists_merge_spec (fun _ => some [recU1]) (fun _ => "") "x"
        [recU1] [recU2] rfl (by decide)).2 recU1 recU2
      (by decide) (by decide) (by decide) (by decide)⟩

/-- C2: merging is idempotent in the incoming batch: re-running the merge
of `I` against the already-merged result returns the merged result
unchanged, so a repeated run with the same batch causes no growth. -/
theorem merge_responses_idempotent (E I : List Json) :
    merge_responses (merge_responses E I) I = merge_responses E I := by
  haveI := dateLe_isTotal
  haveI := dateLe_isTrans
  simp only [merge_responses, filterLoop_eq_dedupF]
  rw [dedupF_insertionSort dateLe]
  rw [dedupF_append_of_subset]
  · rw [dedupF_idem]
    exact List.Sorted.insertionSort_eq
      (List.Pairwise.sublist (dedupF_sublist _)
        (List.sorted_insertionSort dateLe (E ++ I)))
  · intro x hx
    rw [mem_dedupF, List.mem_insertionSort]
    exact List.mem_append_right E hx

/-- C3: a non-empty but unparsable archive makes `save_response` fail with
the archive-corrupt error, and the on-disk file is left byte-for-byte
unchanged — no write happens on this path. -/
theorem save_response_corrupt_archive
    (parse : String → Option (List Json)) (dump : List Json → String)
    (content : String) (I : List Json)
    (hne : 0 < content.length) (hbad : parse content = none) :
    save_response parse dump ⟨some content⟩ I
      = (.error .archiveCorrupt, ⟨some content⟩) := by
  simp only [save_response, hbad]
  rw [if_pos hne]

theorem save_response_corrupt_archive_witness :
    (0 < ("\x7bnot json" : String).length ∧
        (fun _ : String => (none : Option (List Json))) "\x7bnot json" = none)
      ∧ save_response (fun _ => none) (fun _ => "") ⟨some "\x7bnot json"⟩ []
          = (.error .archiveCorrupt, ⟨some "\x7bnot json"⟩) :=
  ⟨⟨by decide, rfl⟩,
    save_response_corrupt_archive (fun _ => none) (fun _ => "") "\x7bnot json" []
      (by decide) rfl⟩

/-- C4 counterexample: a payload parsing to a bare number is returned
as-is by `format_response`, not rejected as malformed — refuting the
claim that a value that is neither object nor list fails with
`MalformedPayload`. -/
theorem format_response_scalar_counterexample :
    format_response (fun _ => some (Json.num 5)) "5" = .ok (Json.num 5)
      ∧ format_response (fun _ => some (Json.num 5)) "5"
          ≠ .error .malformedPayload :=
  ⟨rfl, fun h => Except.noConfusion h⟩

/-- C4 (amended): `format_response` wraps a parsed object into a
one-element list, passes a parsed list through unchanged, fails with
`MalformedPayload` exactly when the payload text is not valid JSON, and
returns any other parsed value (bare string, number, boolean, null)
unchanged rather than failing. -/
theorem format_response_normalizes (parse : String → Option Json) (text : String) :
    (∀ fields, parse text = some (.obj fields) →
        format_response parse text = .ok (.arr [.obj fields]))
      ∧ (∀ items, parse text = some (.arr items) →
          format_response parse text = .ok (.arr items))
      ∧ (parse text = none →
          format_response parse text = .error .malformedPayload)
      ∧ (∀ q, parse text = some q → q.isObj = false →
          format_response parse text = .ok q) := by
  refine ⟨?_, ?_, ?_, ?_⟩
  · intro fields h
    simp only [format_response, h]
  · intro items h
    simp only [format_response, h]
  · intro h
    simp only [format_response, h]
  · intro q h hobj
    simp only [format_response, h]
    cases q <;> first | rfl | simp [Json.isObj] at hobj

theorem format_response_normalizes_witness :
    format_response (fun _ => some (Json.obj [("date", Json.str "2020-01-01")])) "t"
        = .ok (Json.arr [Json.obj [("date", Json.str "2020-01-01")]])
      ∧ format_response (fun _ => none) "t" = .error .malformedPayload :=
  ⟨(format_response_normalizes _ "t").1 _ rfl,
    (format_response_normalizes _ "t").2.2.1 rfl⟩

/-- C5 counterexample: with the archive file absent, `save_response` does
not succeed with the merged incoming batch — it fails (the uncaught
`FileNotFoundError` from `os.path.getsize`). -/
theorem save_response_absent_file_counterexample :
    save_response (fun _ => none) (fun _ => "") ⟨none⟩ []
        = (.error .fsError, ⟨none⟩)
      ∧ (Except.error SaveErr.fsError : Except SaveErr (List Json))
          ≠ .ok (merge_spec [] []) :=
  ⟨rfl, fun h => Except.noConfusion h⟩

/-- C5 (amended): when the archive file exists but is empty,
`save_response` treats the existing sequence as empty and succeeds,
persisting exactly the sorted, deduplicated incoming batch; when the file
is absent it fails with an uncaught filesystem error and writes
nothing. -/
theorem save_response_empty_or_absent_archive
    (parse : String → Option (List Json)) (dump : List Json → String)
    (I : List Json) :
    save_response parse dump ⟨some ""⟩ I
        = (.ok (merge_spec [] I), ⟨some (dump (merge_spec [] I))⟩)
      ∧ save_response parse dump ⟨none⟩ I = (.error .fsError, ⟨none⟩) := by
  constructor
  · simp only [save_response]
    rw [if_neg (by decide), merge_responses_eq_merge_spec]
  · rfl

/-- C6: every sequence successfully persisted by `save_response` has
non-decreasing `date` strings between consecutive records, whatever the
order of the existing archive and incoming batch. -/
theorem save_response_dates_nondecreasing
    (parse : String → Option (List Json)) (dump : List Json → String)
    (fs : FS) (I : List Json) (out : List Json) (fs' : FS)
    (h : save_response parse dump fs I = (.ok out, fs')) :
    out.Chain' dateLe := by
  obtain ⟨E, hE⟩ : ∃ E, out = merge_responses E I := by
    obtain ⟨resp⟩ := fs
    cases resp with
    | none => exact absurd h (by simp [save_response])
    | some content =>
      by_cases hc : 0 < content.length
      · simp only [save_response] at h
        rw [if_pos hc] at h
        cases hp : parse content with
        | none => rw [hp] at h; exact absurd h (by simp)
        | some past =>
          rw [hp] at h
          simp only [Prod.mk.injEq] at h
          exact ⟨past, by injection h.1.symm⟩
      · simp only [save_response] at h
        rw [if_neg hc] at h
        simp only [Prod.mk.injEq] at h
        exact ⟨[], by injection h.1.symm⟩
  rw [hE]
  exact List.Pairwise.chain' (sorted_merge_responses E I)

theorem save_response_dates_nondecreasing_witness :
    List.Chain' dateLe (merge_responses [] [recV2, recU1]) :=
  save_response_dates_nondecreasing (fun _ => none) (fun _ => "") ⟨some ""⟩
    [recV2, recU1] (merge_responses [] [recV2, recU1]) ⟨some ""⟩ rfl

theorem get_images_nil (onDisk : String → Bool) (http : String → HttpResult) :
    get_images onDisk http [] = ([], .ok []) := rfl

theorem get_images_cons (onDisk : String → Bool) (http : String → HttpResult)
    (url : String) (rest : List String) :
    get_images onDisk http (url :: rest) =
      if onDisk (image_name_of url) then get_images onDisk http rest
      else
        match http url with
        | .ok d =>
          (url :: (get_images onDisk http rest).1,
            (get_images onDisk http rest).2.map ((image_name_of url, d) :: ·))
        | .httpErr => ([url], .error .httpError)
        | .transportErr => ([url], .error .transportError) := by
  rw [get_images]

theorem get_images_trace_not_onDisk (onDisk : String → Bool)
    (http : String → HttpResult) :
    ∀ (urls : List String) (u : String),
      u ∈ (get_images onDisk http urls).1 → onDisk (image_name_of u) = false := by
  intro urls
  induction urls with
  | nil => intro u hu; simp [get_images_nil] at hu
  | cons url rest ih =>
    intro u hu
    rw [get_images_cons] at hu
    by_cases hd : onDisk (image_name_of url) = true
    · rw [if_pos hd] at hu
      exact ih u hu
    · have hd' : onDisk (image_name_of url) = false := by simpa using hd
      rw [if_neg hd] at hu
      cases hh : http url <;> rw [hh] at hu <;> simp at hu
      · rcases hu with rfl | hu
        · exact hd'
        · exact ih u hu
      · rw [hu]; exact hd'
      · rw [hu]; exact hd'

/-- C7: `get_images` issues no request for any url whose derived filename
is already present in the image directory, and when every candidate's
filename is present it returns the empty list without error. -/
theorem get_images_skips_existing (onDisk : String → Bool)
    (http : String → HttpResult) (urls : List String) :
    (∀ url : String, onDisk (image_name_of url) = true →
        url ∉ (get_images onDisk http urls).1)
      ∧ ((∀ url ∈ urls, onDisk (image_name_of url) = true) →
          get_images onDisk http urls = ([], .ok [])) := by
  constructor
  · intro url hd hmem
    have := get_images_trace_not_onDisk onDisk http urls url hmem
    rw [hd] at this
    exact Bool.noConfusion this
  · intro hall
    induction urls with
    | nil => rfl
    | cons url rest ih =>
      rw [get_images_cons, if_pos (hall url (List.mem_cons_self url rest))]
      exact ih (fun u hu => hall u (List.mem_cons_of_mem url hu))

theorem get_images_skips_existing_witness :
    (∀ url ∈ ["https://x/moon.jpg"],
        (fun n => decide (n = "moon.jpg")) (image_name_of url) = true)
      ∧ get_images (fun n => decide (n = "moon.jpg")) (fun _ => HttpResult.httpErr)
          ["https://x/moon.jpg"] = ([], .ok []) :=
  ⟨by decide,
    (get_images_skips_existing (fun n => decide (n = "moon.jpg"))
        (fun _ => HttpResult.httpErr) ["https://x/moon.jpg"]).2 (by decide)⟩

/-- C9: a batch containing a record with neither `hdurl` nor `url` makes
`get_image_urls` fail with the missing-image-url error: the whole image
stage is aborted instead of skipping that record and continuing. -/
theorem get_image_urls_missing_fatal
    (records : List Json) (r : Json) (hr : r ∈ records) (_hobj : r.isObj = true)
    (h1 : lookupField r "hdurl" = none) (h2 : lookupField r "url" = none) :
    get_image_urls records = .error .missingImageUrl := by
  induction records with
  | nil => exact absurd hr (List.not_mem_nil r)
  | cons head rest ih =>
    rcases List.mem_cons.mp hr with rfl | hm
    · simp only [get_image_urls, h1, h2]
    · have hrec := ih hm
      simp only [get_image_urls]
      cases hh : lookupField head "hdurl" with
      | some v => rw [hrec]; rfl
      | none =>
        cases hu : lookupField head "url" with
        | some v => rw [hrec]; rfl
        | none => rfl

theorem get_image_urls_missing_fatal_witness :
    Json.obj [("date", Json.str "2020-01-01")]
        ∈ [Json.obj [("date", Json.str "2020-01-01")]]
      ∧ get_image_urls [Json.obj [("date", Json.str "2020-01-01")]]
          = .error .missingImageUrl :=
  ⟨by decide,
    get_image_urls_missing_fatal [Json.obj [("date", Json.str "2020-01-01")]]
      (Json.obj [("date", Json.str "2020-01-01")])
      (by decide) (by decide) (by decide) (by decide)⟩

/-- C10: two distinct urls in one batch sharing a final path segment, with
no such file on disk, are both fetched and both pairs returned; writing
the result stores that one filename twice, the second write's bytes
overwriting the first — the existence-based skip holds only across runs,
not within a batch. -/
theorem get_images_duplicate_names_in_batch (onDisk : String → Bool)
    (http : String → HttpResult) (u1 u2 n d1 d2 : String)
    (dir : String → Option String)
    (_hne : u1 ≠ u2) (h1 : image_name_of u1 = n) (h2 : image_name_of u2 = n)
    (hd : onDisk n = false) (hh1 : http u1 = .ok d1) (hh2 : http u2 = .ok d2) :
    get_images onDisk http [u1, u2] = ([u1, u2], .ok [(n, d1), (n, d2)])
      ∧ save_images dir [(n, d1), (n, d2)] n = some d2 := by
  constructor
  · rw [get_images_cons, h1, if_neg (by simp [hd]), hh1,
      get_images_cons, h2, if_neg (by simp [hd]), hh2, get_images_nil]
    rfl
  · simp [save_images, writeFile]

theorem get_images_duplicate_names_in_batch_witness :
    get_images (fun _ => false)
        (fun u => if u = "a/x.jpg" then HttpResult.ok "D1" else HttpResult.ok "D2")
        ["a/x.jpg", "b/x.jpg"]
        = (["a/x.jpg", "b/x.jpg"], .ok [("x.jpg", "D1"), ("x.jpg", "D2")])
      ∧ save_images (fun _ => none) [("x.jpg", "D1"), ("x.jpg", "D2")] "x.jpg"
          = some "D2" :=
  get_images_duplicate_names_in_batch (fun _ => false)
    (fun u => if u = "a/x.jpg" then HttpResult.ok "D1" else HttpResult.ok "D2")
    "a/x.jpg" "b/x.jpg" "x.jpg" "D1" "D2" (fun _ => none)
    (by decide) (by decide) (by decide) rfl rfl rfl

/-- C8 counterexample: with an unreadable key source, `get_response` fails
with the uncaught filesystem error from `open`, not with the
api-key-missing error the claim names. -/
theorem get_response_unreadable_key_counterexample :
    (get_response none none none none none (fun _ => HttpResult.httpErr)).1
        = .error .fsError
      ∧ (Except.error FetchErr.fsError : Except FetchErr String)
          ≠ .error .apiKeyMissing :=
  ⟨rfl, fun h => by injection h with h'; exact FetchErr.noConfusion h'⟩

theorem request_url_shape (api_key : String) (date sd ed : Option String)
    (c : Option Int) :
    ∃ suffix, request_url api_key date sd ed c = apodBase ++ api_key ++ suffix
      ∧ (suffix = "" ∨ ∃ t, suffix = "&" ++ t) := by
  unfold request_url
  by_cases hd : pyTruthy date = true
  · refine ⟨"&date=" ++ date.getD "", ?_, .inr ⟨"date=" ++ date.getD "", ?_⟩⟩
    · rw [if_pos hd]
      simp [String.append_assoc]
    · rw [show ("&date=" : String) = "&" ++ "date=" from by decide,
        String.append_assoc]
  · rw [if_neg hd]
    by_cases hs : pyTruthy sd = true
    · rw [if_pos hs]
      by_cases he : pyTruthy ed = true
      · refine ⟨"&start_date=" ++ sd.getD "" ++ ("&end_date=" ++ ed.getD ""),
          ?_, .inr ⟨"start_date=" ++ sd.getD "" ++ ("&end_date=" ++ ed.getD ""), ?_⟩⟩
        · rw [if_pos he]
          simp [String.append_assoc]
        · conv_rhs => rw [← String.append_assoc]
          congr 1
      · refine ⟨"&start_date=" ++ sd.getD "",
          ?_, .inr ⟨"start_date=" ++ sd.getD "", ?_⟩⟩
        · rw [if_neg he]
          simp [String.append_assoc]
        · rw [show ("&start_date=" : String) = "&" ++ "start_date=" from by decide,
            String.append_assoc]
    · rw [if_neg hs]
      by_cases hc : pyTruthyInt c = true
      · refine ⟨"&count=" ++ toString (c.getD 0),
          ?_, .inr ⟨"count=" ++ toString (c.getD 0), ?_⟩⟩
        · rw [if_pos hc]
          simp [String.append_assoc]
        · rw [show ("&count=" : String) = "&" ++ "count=" from by decide,
            String.append_assoc]
      · refine ⟨"", ?_, .inl rfl⟩
        rw [if_neg hc]
        simp

/-- C8 (amended): an empty key source fails with the api-key-missing error
before any request is issued (the trace of requested urls is empty); an
unreadable key source fails with the uncaught filesystem error, likewise
before any request; for a non-empty key source the first line, with
trailing whitespace stripped, is embedded as the `api_key` query
parameter of the single requested url. -/
theorem get_response_key_handling :
    (∀ (date sd ed : Option String) (c : Option Int) (http : String → HttpResult),
        get_response (some []) date sd ed c http = (.error .apiKeyMissing, []))
      ∧ (∀ (date sd ed : Option String) (c : Option Int) (http : String → HttpResult),
          get_response none date sd ed c http = (.error .fsError, []))
      ∧ ∀ (line : String) (rest : List String) (date sd ed : Option String)
          (c : Option Int) (http : String → HttpResult),
          ∃ suffix,
            (get_response (some (line :: rest)) date sd ed c http).2
                = [apodBase ++ rstrip line ++ suffix]
              ∧ (suffix = "" ∨ ∃ t, suffix = "&" ++ t) := by
  refine ⟨fun _ _ _ _ _ => rfl, fun _ _ _ _ _ => rfl, ?_⟩
  intro line rest date sd ed c http
  obtain ⟨suffix, hs, hshape⟩ := request_url_shape (rstrip line) date sd ed c
  refine ⟨suffix, ?_, hshape⟩
  have htrace : (get_response (some (line :: rest)) date sd ed c http).2
      = [request_url (rstrip line) date sd ed c] := by
    simp only [get_response]
    cases http (request_url (rstrip line) date sd ed c) <;> rfl
  rw [htrace, hs]
